import Mathlib

/-!
# ws-watcher: paged pointers and the working-set watcher

A shallow embedding of `include/watcher.hpp` and `src/watcher.cpp`.

* Addresses, thread ids and process ids are natural numbers; `uintptr_t` is a
  64-bit word, the null pointer is `0`.
* Host calls (`VirtualLock`, `VirtualUnlock`, `GetWsChangesEx`, `OpenThread`, ...)
  are recorded in explicit traces or supplied as explicit responses.
* A thrown `std::runtime_error` / `std::bad_alloc` is a value of `Failure`.
-/

namespace ws

/-! ## watcher.cpp : page arithmetic -/

/-- The constant `page_size` of watcher.cpp. -/
def page_size : Nat := 0x1000

/-- The all-ones 64-bit word, the range of `std::uintptr_t` and `std::size_t`. -/
def word_mask : Nat := 2 ^ 64 - 1

/-- The function `page_align`: `va & ~( page_size - 1 )` on 64-bit words; the complement
is the exclusive or with the all-ones word. -/
def page_align (va : Nat) : Nat := va &&& (word_mask ^^^ (page_size - 1))

/-! ## Host data -/

/-- One record of `GetWsChangesEx` (`BasicInfo.FaultingPc`, `BasicInfo.FaultingVa`,
`FaultingThreadId`, `Flags`). -/
structure PSAPI_WS_WATCH_INFORMATION_EX where
  FaultingPc : Nat
  FaultingVa : Nat
  FaultingThreadId : Nat
  Flags : Nat
  deriving DecidableEq

/-- The exceptions thrown by the program. -/
inductive Failure where
  | open_thread
  | open_process
  | query_image_name
  | ws_changes (error : Nat)
  | init_ws_watch
  | bad_alloc
  deriving DecidableEq

/-- The answers of the host to the resolution calls made by the scan.
`thread_pid t` is `none` when `OpenThread` fails on thread `t`, else the result of
`GetProcessIdOfThread`; `open_process p` tells whether `OpenProcess` succeeds;
`image_name p` is `none` when `QueryFullProcessImageNameW` fails. -/
structure Host where
  current_pid : Nat
  thread_pid : Nat → Option Nat
  open_process : Nat → Bool
  image_name : Nat → Option String

/-- The lines the program prints. `adding` is the line of `watcher::add`, `mapped` the
`std::println` of the scan (page, exact address, thread id, program counter), `image` the
`std::printf` that follows it (path, process id). -/
inductive Line where
  | adding (va : Nat)
  | mapped (page va tid pc : Nat)
  | image (path : String) (pid : Nat)
  deriving DecidableEq

/-- The function `get_process_id`: the thread id is cast to a `DWORD` before `OpenThread`. -/
def get_process_id (h : Host) (tid : Nat) : Except Failure Nat :=
  match h.thread_pid (tid % 2 ^ 32) with
  | none => .error .open_thread
  | some pid => .ok pid

/-- The function `get_process_path`. -/
def get_process_path (h : Host) (pid : Nat) : Except Failure String :=
  if h.open_process pid then
    match h.image_name pid with
    | none => .error .query_image_name
    | some path => .ok path
  else .error .open_process

/-! ## watcher.cpp : the scan of one batch (the `for` loop of `watcher::watch`) -/

/-- The `for ( const auto& entry : buffer )` loop of `watcher::watch`: the lines printed, and
the exception that ended the loop early, if any. `std::find` over the watch list is list
membership. -/
def scan (h : Host) (watch_list : List Nat) :
    List PSAPI_WS_WATCH_INFORMATION_EX → List Line × Option Failure
  | [] => ([], none)
  | entry :: rest =>
    if entry.FaultingPc = 0 then scan h watch_list rest
    else if page_align entry.FaultingVa ∈ watch_list then
      match get_process_id h entry.FaultingThreadId with
      | .error e => ([], some e)
      | .ok pid =>
        if pid = h.current_pid then scan h watch_list rest
        else
          match get_process_path h pid with
          | .error e =>
            ([Line.mapped (page_align entry.FaultingVa) entry.FaultingVa
                entry.FaultingThreadId entry.FaultingPc], some e)
          | .ok path =>
            (Line.mapped (page_align entry.FaultingVa) entry.FaultingVa
                entry.FaultingThreadId entry.FaultingPc
              :: Line.image path pid :: (scan h watch_list rest).1,
             (scan h watch_list rest).2)
    else scan h watch_list rest

/-- Whether a line is the `mapped` report of a touch of the page `page`. -/
def Line.is_mapped_on (page : Nat) : Line → Bool
  | .mapped p _ _ _ => p == page
  | _ => false

/-- A host whose current process is 1, whose threads are owned as `owner` says, and in which
every process can be opened and has the image name `reader.exe`. -/
def Host.sample (owner : Nat → Option Nat) : Host :=
  ⟨1, owner, fun _ => true, fun _ => some "reader.exe"⟩

/-! ## watcher.cpp : one iteration of the poll loop -/

/-- The state of a `std::jthread` that the program observes: whether it is joinable, whether
a stop was requested on its stop source, and how many `join( )` calls were performed. -/
structure jthread where
  joinable : Bool
  stop_requested : Bool
  joins : Nat
  deriving DecidableEq

/-- A `std::jthread` just constructed on a running task. -/
def jthread.started : jthread := ⟨true, false, 0⟩

/-- The call `detach( )`: the object no longer owns the task; the stop source is kept. -/
def jthread.detach (t : jthread) : jthread := { t with joinable := false }

/-- The call `request_stop( )`. -/
def jthread.request_stop (t : jthread) : jthread := { t with stop_requested := true }

/-- The call `join( )` on a joinable thread: waits for the task, after which the object is
no longer joinable. -/
def jthread.join (t : jthread) : jthread := { t with joinable := false, joins := t.joins + 1 }

/-- The class `watcher`: its background thread and its watch list. -/
structure watcher where
  thread : jthread
  watch_list : List Nat
  deriving DecidableEq

/-- The function `watcher::add`: prints one line and appends `va` to the watch list. -/
def watcher.add (w : watcher) (va : Nat) : watcher × Line :=
  ({ w with watch_list := w.watch_list ++ [va] }, Line.adding va)

/-- A sequence of `watcher::add` calls, left to right. -/
def watcher.add_all (w : watcher) (vas : List Nat) : watcher :=
  vas.foldl (fun acc va => (acc.add va).1) w

/-- The function `watcher::get` on the static `watcher::instance` (`none` is the null
pointer). `init_ok` is the result of `InitializeProcessForWsWatch`. The new instance gets a
started thread, which is detached at once. Returns the instance, also stored in the static. -/
def watcher.get (init_ok : Bool) (inst : Option watcher) : Except Failure watcher :=
  match inst with
  | some w => .ok w
  | none =>
    if init_ok then .ok { thread := jthread.started.detach, watch_list := [] }
    else .error .init_ws_watch

/-- The function `watcher::stop`. -/
def watcher.stop (w : watcher) : watcher :=
  if w.thread.request_stop.joinable then { w with thread := w.thread.request_stop.join }
  else { w with thread := w.thread.request_stop }

/-! ## watcher.hpp : `paged_ptr` -/

/-- The memory calls the paged pointer makes. `delete` is the `delete instance` of move
assignment. -/
inductive OsCall where
  | VirtualLock (addr size : Nat)
  | VirtualUnlock (addr size : Nat)
  | VirtualFree (addr : Nat)
  | delete (addr : Nat)
  deriving DecidableEq

/-- The class `paged_ptr< T >`: the pointer `instance` (`inst`, `0` is null) and the flag
`locked`. -/
structure paged_ptr where
  inst : Nat
  locked : Bool
  deriving DecidableEq

/-- The conversion `operator bool`. -/
def paged_ptr.valid (p : paged_ptr) : Bool := p.inst != 0

/-- The control block of one `std::shared_ptr< T >` returned by `lock( )`: the pointer
handed to the deleter and the number of live references. -/
structure shared_ptr where
  ptr : Nat
  use_count : Nat
  deriving DecidableEq

/-- One paged pointer with everything derived from it: the handles created so far by
`lock( )` in creation order (a released handle stays, with `use_count = 0`), and the trace
of memory calls. -/
structure Mem where
  self : paged_ptr
  handles : List shared_ptr
  trace : List OsCall
  deriving DecidableEq

/-- The lock state of the page at `addr` after a trace of calls: whether the last
`VirtualLock` / `VirtualUnlock` applied to `addr` was a `VirtualLock`. -/
def page_locked (addr : Nat) (trace : List OsCall) : Bool :=
  trace.foldl
    (fun st c =>
      match c with
      | .VirtualLock a _ => if a = addr then true else st
      | .VirtualUnlock a _ => if a = addr then false else st
      | _ => st)
    false

/-- The private constructor `paged_ptr( T* instance )`, with `sz = sizeof( T )`: the memory
calls made and the address handed to `watcher::add`. -/
def paged_ptr.construct (sz : Nat) (instance_ptr : Nat) : Mem × Nat :=
  (⟨⟨instance_ptr, false⟩, [],
    if instance_ptr ≠ 0 then [OsCall.VirtualUnlock instance_ptr sz] else []⟩, instance_ptr)

/-- The function `make_paged`: `buffer` is the result of `VirtualAlloc`, `w` the watcher
returned by `watcher::get( )`. -/
def make_paged (sz : Nat) (buffer : Nat) (w : watcher) : Except Failure (Mem × watcher × Line) :=
  if buffer = 0 then .error .bad_alloc
  else .ok ((paged_ptr.construct sz buffer).1, w.add (paged_ptr.construct sz buffer).2)

/-- The function `paged_ptr::lock`: locks the range if the flag is clear and the pointer is
not null, then returns a new shared pointer (the last handle of the result). -/
def Mem.lock (sz : Nat) (m : Mem) : Mem :=
  if !m.self.locked && m.self.inst != 0 then
    { self := { m.self with locked := true },
      handles := m.handles ++ [⟨m.self.inst, 1⟩],
      trace := m.trace ++ [OsCall.VirtualLock m.self.inst sz] }
  else
    { m with handles := m.handles ++ [⟨m.self.inst, 1⟩] }

/-- Copying a reference to handle number `i`. -/
def Mem.copy (i : Nat) (m : Mem) : Mem :=
  match m.handles.get? i with
  | some cb =>
    if cb.use_count = 0 then m
    else { m with handles := m.handles.set i { cb with use_count := cb.use_count + 1 } }
  | none => m

/-- Releasing one reference to handle number `i`: the last reference runs the deleter given
in `lock( )`, which calls `VirtualUnlock` twice on the stored pointer. -/
def Mem.release (sz : Nat) (i : Nat) (m : Mem) : Mem :=
  match m.handles.get? i with
  | some cb =>
    if cb.use_count = 0 then m
    else if cb.use_count = 1 then
      { m with
        handles := m.handles.set i { cb with use_count := 0 },
        trace := m.trace ++ [OsCall.VirtualUnlock cb.ptr sz, OsCall.VirtualUnlock cb.ptr sz] }
    else { m with handles := m.handles.set i { cb with use_count := cb.use_count - 1 } }
  | none => m

/-- The operations a client performs on a paged pointer and its handles. -/
inductive Op where
  | lock
  | copy (i : Nat)
  | release (i : Nat)
  deriving DecidableEq

/-- One operation. -/
def Mem.step (sz : Nat) (m : Mem) : Op → Mem
  | .lock => m.lock sz
  | .copy i => m.copy i
  | .release i => m.release sz i

/-- A sequence of operations, left to right. -/
def Mem.run (sz : Nat) (m : Mem) (ops : List Op) : Mem := ops.foldl (Mem.step sz) m

/-- Whether some handle is alive. -/
def Mem.some_alive (m : Mem) : Bool := m.handles.any (fun cb => cb.use_count != 0)

/-- Whether every handle created so far is alive. -/
def Mem.all_alive (m : Mem) : Bool := m.handles.all (fun cb => cb.use_count != 0)

/-- The destructor `~paged_ptr( )`. -/
def paged_ptr.destroy (sz : Nat) (p : paged_ptr) : List OsCall :=
  if p.inst ≠ 0 then [OsCall.VirtualLock p.inst sz, OsCall.VirtualFree p.inst] else []

/-- The move constructor: the new object and the source afterwards. -/
def paged_ptr.move_construct (other : paged_ptr) : paged_ptr × paged_ptr :=
  (⟨other.inst, other.locked⟩, ⟨0, false⟩)

/-- Paged pointer objects by storage location, with the trace of memory calls. -/
structure Objects where
  obj : Nat → paged_ptr
  trace : List OsCall

/-- The move assignment `operator=( paged_ptr&& other )` of the object at location `this`
from the object at location `other`. -/
def Objects.move_assign (s : Objects) (this other : Nat) : Objects :=
  if this ≠ other then
    { obj := Function.update (Function.update s.obj this ⟨(s.obj other).inst, (s.obj other).locked⟩)
        other ⟨0, false⟩,
      trace := if (s.obj this).inst ≠ 0 then s.trace ++ [OsCall.delete (s.obj this).inst]
        else s.trace }
  else s

/-- The invariant of a valid paged pointer at address `a`: the address is fixed, every
handle points to it, a handle exists only once the flag is set, and while every handle
created so far is alive a set flag means the page is locked. -/
def Mem.Inv (a : Nat) (m : Mem) : Prop :=
  m.self.inst = a ∧
  (∀ cb ∈ m.handles, cb.ptr = a) ∧
  (m.handles ≠ [] → m.self.locked = true) ∧
  (m.all_alive = true → m.self.locked = true → page_locked a m.trace = true)

/-! ## Properties of `page_align` -/

theorem page_mask_eq : word_mask ^^^ (page_size - 1) = 2 ^ 12 * (2 ^ 52 - 1) := by decide

theorem page_align_eq_mul_div (va : Nat) (h : va < 2 ^ 64) :
    page_align va = 2 ^ 12 * (va / 2 ^ 12) := by
  unfold page_align
  rw [page_mask_eq]
  apply Nat.eq_of_testBit_eq
  intro i
  rw [Nat.testBit_land, Nat.testBit_mul_pow_two, Nat.testBit_mul_pow_two,
    Nat.testBit_two_pow_sub_one, ← Nat.shiftRight_eq_div_pow, Nat.testBit_shiftRight]
  by_cases hi : 12 ≤ i
  · have e : 12 + (i - 12) = i := by omega
    by_cases h52 : i - 12 < 52
    · simp [hi, h52, e]
    · have hlt : va < 2 ^ i :=
        lt_of_lt_of_le h (Nat.pow_le_pow_right (by decide) (by omega))
      simp [hi, h52, e, Nat.testBit_lt_two_pow hlt]
  · simp [hi]

theorem page_align_eq_sub_mod (va : Nat) (h : va < 2 ^ 64) :
    page_align va = va - va % page_size := by
  rw [page_align_eq_mul_div va h]
  have := Nat.div_add_mod va (2 ^ 12)
  show 2 ^ 12 * (va / 2 ^ 12) = va - va % 2 ^ 12
  omega

theorem page_align_lt (va : Nat) (h : va < 2 ^ 64) : page_align va < 2 ^ 64 := by
  rw [page_align_eq_sub_mod va h]
  omega

/-- C10: on 64-bit words `page_align` rounds down to the start of the 4096-byte page: the
result is a multiple of `page_size`, lies in `(va - page_size, va]`, equals
`va - va % page_size`, is a fixed point of `page_align`, and two addresses have the same
result exactly when they have the same page number. -/
theorem page_align_rounds_down (va vb : Nat) (ha : va < 2 ^ 64) (hb : vb < 2 ^ 64) :
    page_size ∣ page_align va ∧
    page_align va ≤ va ∧
    va < page_align va + page_size ∧
    page_align va = va - va % page_size ∧
    page_align (page_align va) = page_align va ∧
    (page_align va = page_align vb ↔ va / page_size = vb / page_size) := by
  have ea := page_align_eq_mul_div va ha
  have eb := page_align_eq_mul_div vb hb
  have da := Nat.div_add_mod va (2 ^ 12)
  have hr : va % 2 ^ 12 < 2 ^ 12 := Nat.mod_lt _ (by decide)
  refine ⟨?_, ?_, ?_, page_align_eq_sub_mod va ha, ?_, ?_⟩
  · rw [ea]; exact Dvd.intro _ rfl
  · rw [ea]; omega
  · rw [ea]; show va < 2 ^ 12 * (va / 2 ^ 12) + 2 ^ 12; omega
  · rw [page_align_eq_mul_div _ (page_align_lt va ha), ea,
      Nat.mul_div_cancel_left _ (by decide : 0 < 2 ^ 12)]
  · rw [ea, eb]
    show 2 ^ 12 * (va / 2 ^ 12) = 2 ^ 12 * (vb / 2 ^ 12) ↔ va / 2 ^ 12 = vb / 2 ^ 12
    constructor
    · intro h; exact Nat.eq_of_mul_eq_mul_left (by decide : 0 < 2 ^ 12) h
    · intro h; rw [h]

/-- Witness for C10 at the addresses `0x7ff612345678` and `0x7ff612345004`, which share a
page. -/
theorem page_align_rounds_down_witness :
    page_size ∣ page_align 0x7ff612345678 ∧
    page_align 0x7ff612345678 ≤ 0x7ff612345678 ∧
    0x7ff612345678 < page_align 0x7ff612345678 + page_size ∧
    page_align 0x7ff612345678 = 0x7ff612345678 - 0x7ff612345678 % page_size ∧
    page_align (page_align 0x7ff612345678) = page_align 0x7ff612345678 ∧
    (page_align 0x7ff612345678 = page_align 0x7ff612345004 ↔
      0x7ff612345678 / page_size = 0x7ff612345004 / page_size) :=
  page_align_rounds_down 0x7ff612345678 0x7ff612345004 (by decide) (by decide)

/-! ## The watch list -/

theorem add_watch_list (w : watcher) (va : Nat) :
    (w.add va).1.watch_list = w.watch_list ++ [va] := rfl

theorem add_all_watch_list (w : watcher) (vas : List Nat) :
    (w.add_all vas).watch_list = w.watch_list ++ vas := by
  induction vas generalizing w with
  | nil => simp [watcher.add_all]
  | cons v vs ih =>
    have h := ih (w.add v).1
    simp only [watcher.add_all, List.foldl_cons] at h ⊢
    rw [h, add_watch_list]
    simp

theorem add_all_thread (w : watcher) (vas : List Nat) :
    (w.add_all vas).thread = w.thread := by
  induction vas generalizing w with
  | nil => rfl
  | cons v vs ih =>
    have h := ih (w.add v).1
    simp only [watcher.add_all, List.foldl_cons] at h ⊢
    rw [h]; rfl

/-- C6, as stated, fails: from the empty watch list, adding the address `0x5000` twice
leaves two entries, at positions 0 and 1, with the same `page_align` value. -/
theorem add_twice_keeps_both :
    (watcher.add_all ⟨jthread.started.detach, []⟩ [0x5000, 0x5000]).watch_list
        = [0x5000, 0x5000] ∧
    ¬ ((watcher.add_all ⟨jthread.started.detach, []⟩ [0x5000, 0x5000]).watch_list.map
        page_align).Nodup := by
  decide

/-- C6, amended: from the empty watch list, after any sequence of `add` calls the watch list
is the sequence of added addresses in call order, one entry per call, repetitions kept; so
its entries lie on pairwise distinct pages exactly when the added addresses do. -/
theorem add_all_from_empty (t : jthread) (vas : List Nat) :
    (watcher.add_all ⟨t, []⟩ vas).watch_list = vas ∧
    (watcher.add_all ⟨t, []⟩ vas).watch_list.length = vas.length ∧
    (((watcher.add_all ⟨t, []⟩ vas).watch_list.map page_align).Nodup ↔
      (vas.map page_align).Nodup) := by
  have h : (watcher.add_all ⟨t, []⟩ vas).watch_list = vas := by
    rw [add_all_watch_list]; rfl
  rw [h]
  exact ⟨rfl, rfl, Iff.rfl⟩

/-- C7: `add( va )` appends `va`: the new watch list is the old one followed by `va`, so it
contains `va` and keeps every old entry at its position; and after any sequence of `add`
calls the watch list keeps its old entries as a prefix and contains every added address. -/
theorem add_keeps_registrations (w : watcher) (va : Nat) (vas : List Nat) :
    (w.add va).1.watch_list = w.watch_list ++ [va] ∧
    va ∈ (w.add va).1.watch_list ∧
    (∀ x ∈ w.watch_list, x ∈ (w.add va).1.watch_list) ∧
    (∀ i x, w.watch_list.get? i = some x → (w.add va).1.watch_list.get? i = some x) ∧
    w.watch_list <+: (w.add_all vas).watch_list ∧
    (∀ v ∈ vas, v ∈ (w.add_all vas).watch_list) := by
  rw [add_all_watch_list, add_watch_list]
  refine ⟨rfl, by simp, ?_, ?_, List.prefix_append _ _, ?_⟩
  · intro x hx; simp [hx]
  · intro i x hx
    have hi : i < w.watch_list.length := by
      rcases Nat.lt_or_ge i w.watch_list.length with h | h
      · exact h
      · rw [List.get?_eq_none.mpr h] at hx; cases hx
    rw [List.get?_eq_getElem?, List.getElem?_append_left hi, ← List.get?_eq_getElem?]; exact hx
  · intro v hv; simp [hv]

/-! ## The watcher thread -/

/-- C5, the code at `watcher::get( )` followed by `stop( )`: the instance that `get`
creates has a detached thread, and `stop` on it (after any `add` calls) raises the stop
signal but performs no join; a later `get` returns that same instance. -/
theorem stop_after_get_skips_join (vas : List Nat) :
    watcher.get true none = Except.ok ⟨⟨false, false, 0⟩, []⟩ ∧
    ((watcher.add_all ⟨⟨false, false, 0⟩, []⟩ vas).stop).thread = ⟨false, true, 0⟩ ∧
    watcher.get true (some (watcher.add_all ⟨⟨false, false, 0⟩, []⟩ vas).stop)
      = Except.ok (watcher.add_all ⟨⟨false, false, 0⟩, []⟩ vas).stop := by
  refine ⟨rfl, ?_, rfl⟩
  have h := add_all_thread ⟨⟨false, false, 0⟩, []⟩ vas
  simp [watcher.stop, jthread.request_stop, h]

/-! ## Moves of a paged pointer -/

/-- C8: move construction and move assignment give the destination the address and flag of
the source and leave the source null and unlocked; `operator bool` is true exactly on a
non-null address, so it is false on the source afterwards and tells whether the moved
address is non-null on the destination; self move-assignment changes nothing. -/
theorem move_semantics (s : Objects) (this other : Nat) (hne : this ≠ other)
    (src : paged_ptr) :
    (src.valid = true ↔ src.inst ≠ 0) ∧
    (paged_ptr.move_construct src).1 = ⟨src.inst, src.locked⟩ ∧
    (paged_ptr.move_construct src).2 = ⟨0, false⟩ ∧
    (paged_ptr.move_construct src).2.valid = false ∧
    ((paged_ptr.move_construct src).1.valid = true ↔ src.inst ≠ 0) ∧
    (s.move_assign this other).obj this = s.obj other ∧
    (s.move_assign this other).obj other = ⟨0, false⟩ ∧
    ((s.move_assign this other).obj other).valid = false ∧
    (((s.move_assign this other).obj this).valid = true ↔ (s.obj other).inst ≠ 0) ∧
    s.move_assign this this = s := by
  have hv : ∀ p : paged_ptr, p.valid = true ↔ p.inst ≠ 0 := by
    intro p; simp [paged_ptr.valid]
  have h1 : (s.move_assign this other).obj this = s.obj other := by
    simp [Objects.move_assign, hne, Function.update]
  have h2 : (s.move_assign this other).obj other = ⟨0, false⟩ := by
    simp [Objects.move_assign, hne, Function.update]
  refine ⟨hv src, rfl, rfl, rfl, hv _, h1, h2, ?_, ?_, ?_⟩
  · rw [h2]; rfl
  · rw [h1]; exact hv _
  · simp [Objects.move_assign]

/-- Witness for C8: the object at location 0 owns `0x10000` (locked), the object at
location 1 owns `0x20000`; location 1 is move-assigned from location 0. -/
theorem move_semantics_witness :
    ((⟨0x10000, true⟩ : paged_ptr).valid = true ↔ (⟨0x10000, true⟩ : paged_ptr).inst ≠ 0) ∧
    (paged_ptr.move_construct ⟨0x10000, true⟩).1 = ⟨0x10000, true⟩ ∧
    (paged_ptr.move_construct ⟨0x10000, true⟩).2 = ⟨0, false⟩ ∧
    (paged_ptr.move_construct ⟨0x10000, true⟩).2.valid = false ∧
    ((paged_ptr.move_construct ⟨0x10000, true⟩).1.valid = true ↔
      (⟨0x10000, true⟩ : paged_ptr).inst ≠ 0) ∧
    ((Objects.mk (fun i => if i = 0 then ⟨0x10000, true⟩ else ⟨0x20000, false⟩) []).move_assign
        1 0).obj 1
      = (Objects.mk (fun i => if i = 0 then ⟨0x10000, true⟩ else ⟨0x20000, false⟩) []).obj 0 ∧
    ((Objects.mk (fun i => if i = 0 then ⟨0x10000, true⟩ else ⟨0x20000, false⟩) []).move_assign
        1 0).obj 0 = ⟨0, false⟩ ∧
    (((Objects.mk (fun i => if i = 0 then ⟨0x10000, true⟩ else ⟨0x20000, false⟩) []).move_assign
        1 0).obj 0).valid = false ∧
    ((((Objects.mk (fun i => if i = 0 then ⟨0x10000, true⟩ else ⟨0x20000, false⟩) []).move_assign
        1 0).obj 1).valid = true ↔
      ((Objects.mk (fun i => if i = 0 then ⟨0x10000, true⟩ else ⟨0x20000, false⟩) []).obj
        0).inst ≠ 0) ∧
    (Objects.mk (fun i => if i = 0 then ⟨0x10000, true⟩ else ⟨0x20000, false⟩) []).move_assign
        1 1
      = Objects.mk (fun i => if i = 0 then ⟨0x10000, true⟩ else ⟨0x20000, false⟩) [] :=
  move_semantics (Objects.mk (fun i => if i = 0 then ⟨0x10000, true⟩ else ⟨0x20000, false⟩) [])
    1 0 (by decide) ⟨0x10000, true⟩

/-! ## Locking and handles -/

theorem all_of_all_set {α : Type} (p : α → Bool) (x y : α) :
    ∀ (l : List α) (i : Nat), l.get? i = some y → (l.set i x).all p = true →
      p x = true ∧ (p y = true → l.all p = true)
  | [], _, h, _ => by simp at h
  | b :: t, 0, h, hall => by
    simp only [List.get?_cons_zero, Option.some.injEq] at h
    subst h
    simp only [List.set_cons_zero, List.all_cons, Bool.and_eq_true] at hall ⊢
    exact ⟨hall.1, fun hb => ⟨hb, hall.2⟩⟩
  | b :: t, i + 1, h, hall => by
    simp only [List.get?_cons_succ] at h
    simp only [List.set_cons_succ, List.all_cons, Bool.and_eq_true] at hall ⊢
    have ih := all_of_all_set p x y t i h hall.2
    exact ⟨ih.1, fun hy => ⟨hall.1, ih.2 hy⟩⟩

theorem page_locked_append_lock (a sz : Nat) (t : List OsCall) :
    page_locked a (t ++ [OsCall.VirtualLock a sz]) = true := by
  simp [page_locked, List.foldl_append]

theorem page_locked_append_unlocks (a sz : Nat) (t : List OsCall) :
    page_locked a (t ++ [OsCall.VirtualUnlock a sz, OsCall.VirtualUnlock a sz]) = false := by
  simp [page_locked, List.foldl_append]

theorem inv_construct (sz a : Nat) : Mem.Inv a (paged_ptr.construct sz a).1 := by
  simp [Mem.Inv, paged_ptr.construct]

theorem inv_lock (sz a : Nat) (ha : a ≠ 0) (m : Mem) (h : Mem.Inv a m) :
    Mem.Inv a (m.lock sz) := by
  obtain ⟨h1, h2, h3, h4⟩ := h
  unfold Mem.lock
  cases hl : m.self.locked
  · have hc : (!false && m.self.inst != 0) = true := by simp [h1, ha]
    rw [if_pos hc]
    refine ⟨h1, ?_, fun _ => rfl, fun _ _ => ?_⟩
    · intro cb hcb
      rcases List.mem_append.mp hcb with h | h
      · exact h2 cb h
      · simp at h; rw [h]; exact h1
    · show page_locked a (m.trace ++ [OsCall.VirtualLock m.self.inst sz]) = true
      rw [h1]; exact page_locked_append_lock a sz m.trace
  · have hc : ¬ ((!true && m.self.inst != 0) = true) := by simp
    rw [if_neg hc]
    refine ⟨h1, ?_, fun _ => hl, fun hall _ => ?_⟩
    · intro cb hcb
      rcases List.mem_append.mp hcb with h | h
      · exact h2 cb h
      · simp at h; rw [h]; exact h1
    · apply h4 _ hl
      simp only [Mem.all_alive, List.all_append, Bool.and_eq_true] at hall ⊢
      exact hall.1

theorem inv_copy (a : Nat) (i : Nat) (m : Mem) (h : Mem.Inv a m) : Mem.Inv a (m.copy i) := by
  obtain ⟨h1, h2, h3, h4⟩ := h
  unfold Mem.copy
  cases hg : m.handles.get? i with
  | none => exact ⟨h1, h2, h3, h4⟩
  | some cb =>
    have hmem : cb ∈ m.handles := List.get?_mem hg
    by_cases hz : cb.use_count = 0
    · simp only [hz, if_true]; exact ⟨h1, h2, h3, h4⟩
    · simp only [hz, if_false]
      refine ⟨h1, ?_, ?_, ?_⟩
      · intro c hc
        rcases List.mem_or_eq_of_mem_set hc with h | h
        · exact h2 c h
        · rw [h]; exact h2 cb hmem
      · intro hne; apply h3; intro e; apply hne; simp [e]
      · intro hall hl
        apply h4 _ hl
        exact (all_of_all_set _ _ cb m.handles i hg hall).2 (by simp [hz])

theorem inv_release (sz a : Nat) (i : Nat) (m : Mem) (h : Mem.Inv a m) :
    Mem.Inv a (m.release sz i) := by
  obtain ⟨h1, h2, h3, h4⟩ := h
  unfold Mem.release
  cases hg : m.handles.get? i with
  | none => exact ⟨h1, h2, h3, h4⟩
  | some cb =>
    have hmem : cb ∈ m.handles := List.get?_mem hg
    by_cases hz : cb.use_count = 0
    · simp only [hz, if_true]; exact ⟨h1, h2, h3, h4⟩
    · by_cases ho : cb.use_count = 1
      · simp only [ho, if_true, one_ne_zero, if_false]
        refine ⟨h1, ?_, ?_, ?_⟩
        · intro c hc
          rcases List.mem_or_eq_of_mem_set hc with h | h
          · exact h2 c h
          · rw [h]; exact h2 cb hmem
        · intro hne; apply h3; intro e; apply hne; simp [e]
        · intro hall _
          have := (all_of_all_set _ _ cb m.handles i hg hall).1
          simp at this
      · simp only [hz, ho, if_false]
        refine ⟨h1, ?_, ?_, ?_⟩
        · intro c hc
          rcases List.mem_or_eq_of_mem_set hc with h | h
          · exact h2 c h
          · rw [h]; exact h2 cb hmem
        · intro hne; apply h3; intro e; apply hne; simp [e]
        · intro hall hl
          apply h4 _ hl
          exact (all_of_all_set _ _ cb m.handles i hg hall).2 (by simp [hz])

theorem inv_run (sz a : Nat) (ha : a ≠ 0) (ops : List Op) :
    ∀ m : Mem, Mem.Inv a m → Mem.Inv a (m.run sz ops) := by
  induction ops with
  | nil => intro m h; exact h
  | cons op rest ih =>
    intro m h
    show Mem.Inv a (Mem.run sz (Mem.step sz m op) rest)
    apply ih
    cases op with
    | lock => exact inv_lock sz a ha m h
    | copy i => exact inv_copy a i m h
    | release i => exact inv_release sz a i m h

theorem release_trace (sz i : Nat) (m : Mem) (cb : shared_ptr)
    (hg : m.handles.get? i = some cb) :
    (cb.use_count = 1 →
      (m.release sz i).trace =
        m.trace ++ [OsCall.VirtualUnlock cb.ptr sz, OsCall.VirtualUnlock cb.ptr sz]) ∧
    (cb.use_count ≠ 1 → (m.release sz i).trace = m.trace) := by
  unfold Mem.release
  rw [hg]
  constructor
  · intro h1; simp [h1]
  · intro h1
    by_cases hz : cb.use_count = 0
    · simp [hz]
    · simp [hz, h1]

theorem get?_set_self {α : Type} (x y : α) :
    ∀ (l : List α) (i : Nat), l.get? i = some y → (l.set i x).get? i = some x
  | [], _, h => by simp at h
  | _ :: _, 0, _ => by simp
  | _ :: t, i + 1, h => by
    simp only [List.get?_cons_succ] at h
    simp only [List.set_cons_succ, List.get?_cons_succ]
    exact get?_set_self x y t i h

theorem release_handle (sz i : Nat) (m : Mem) (cb : shared_ptr)
    (hg : m.handles.get? i = some cb) (hlive : 0 < cb.use_count) :
    (m.release sz i).handles.get? i = some ⟨cb.ptr, cb.use_count - 1⟩ := by
  unfold Mem.release
  rw [hg]
  have hz : cb.use_count ≠ 0 := by omega
  by_cases h1 : cb.use_count = 1
  · simp only [hz, h1, if_true, if_false, one_ne_zero]
    exact get?_set_self _ cb m.handles i hg
  · simp only [hz, h1, if_false]
    exact get?_set_self _ cb m.handles i hg

theorem copy_handle (i : Nat) (m : Mem) (cb : shared_ptr)
    (hg : m.handles.get? i = some cb) (hlive : 0 < cb.use_count) :
    (m.copy i).handles.get? i = some ⟨cb.ptr, cb.use_count + 1⟩ ∧ (m.copy i).trace = m.trace := by
  unfold Mem.copy
  rw [hg]
  have hz : cb.use_count ≠ 0 := by omega
  simp only [hz, if_false]
  exact ⟨get?_set_self _ cb m.handles i hg, trivial⟩

theorem release_many (sz i : Nat) :
    ∀ (k : Nat) (m : Mem) (cb : shared_ptr), m.handles.get? i = some cb →
      cb.use_count = k + 1 →
      (m.run sz (List.replicate k (Op.release i))).trace = m.trace ∧
      (m.run sz (List.replicate k (Op.release i))).handles.get? i = some ⟨cb.ptr, 1⟩ := by
  intro k
  induction k with
  | zero =>
    intro m cb hg hc
    refine ⟨rfl, ?_⟩
    show m.handles.get? i = some ⟨cb.ptr, 1⟩
    rw [hg]
    cases cb with
    | mk p c =>
      simp only [Nat.zero_add] at hc
      simp only [hc]
  | succ k ih =>
    intro m cb hg hc
    have hh := release_handle sz i m cb hg (by omega)
    have ht := (release_trace sz i m cb hg).2 (by omega)
    have hstep := ih (m.release sz i) ⟨cb.ptr, cb.use_count - 1⟩ hh (by show cb.use_count - 1 = k + 1; omega)
    show (Mem.run sz (m.release sz i) (List.replicate k (Op.release i))).trace = m.trace ∧
      (Mem.run sz (m.release sz i) (List.replicate k (Op.release i))).handles.get? i
        = some ⟨cb.ptr, 1⟩
    rw [hstep.1, ht]
    exact ⟨rfl, hstep.2⟩

theorem run_append (sz : Nat) (m : Mem) (xs ys : List Op) :
    m.run sz (xs ++ ys) = (m.run sz xs).run sz ys := by
  simp [Mem.run, List.foldl_append]

/-- C4: for a valid paged pointer at address `a` with `sz = sizeof( T )`, in any state
reached by `lock( )` calls, handle copies and releases, every handle points to `a`. For a
live handle holding `n` references: a copy adds one reference and a release removes one,
neither touching other calls; releasing `n - 1` references appends nothing to the trace of
memory calls; releasing all `n` appends exactly two `VirtualUnlock( a, sz )` calls, issued
by the release of the last one, and nothing else, and leaves the handle dead. -/
theorem release_last_unlocks_twice (sz a : Nat) (ha : a ≠ 0) (ops : List Op) (i : Nat)
    (cb : shared_ptr)
    (hg : ((paged_ptr.construct sz a).1.run sz ops).handles.get? i = some cb)
    (hlive : 0 < cb.use_count) :
    cb.ptr = a ∧
    (cb.use_count = 1 →
      (((paged_ptr.construct sz a).1.run sz ops).release sz i).trace =
        ((paged_ptr.construct sz a).1.run sz ops).trace ++
          [OsCall.VirtualUnlock a sz, OsCall.VirtualUnlock a sz]) ∧
    (1 < cb.use_count →
      (((paged_ptr.construct sz a).1.run sz ops).release sz i).trace =
        ((paged_ptr.construct sz a).1.run sz ops).trace) ∧
    (((paged_ptr.construct sz a).1.run sz ops).release sz i).handles.get? i
      = some ⟨a, cb.use_count - 1⟩ ∧
    (((paged_ptr.construct sz a).1.run sz ops).copy i).handles.get? i
      = some ⟨a, cb.use_count + 1⟩ ∧
    (((paged_ptr.construct sz a).1.run sz ops).copy i).trace
      = ((paged_ptr.construct sz a).1.run sz ops).trace ∧
    ((paged_ptr.construct sz a).1.run sz
        (ops ++ List.replicate (cb.use_count - 1) (Op.release i))).trace
      = ((paged_ptr.construct sz a).1.run sz ops).trace ∧
    ((paged_ptr.construct sz a).1.run sz
        (ops ++ List.replicate cb.use_count (Op.release i))).trace
      = ((paged_ptr.construct sz a).1.run sz ops).trace ++
          [OsCall.VirtualUnlock a sz, OsCall.VirtualUnlock a sz] ∧
    ((paged_ptr.construct sz a).1.run sz
        (ops ++ List.replicate cb.use_count (Op.release i))).handles.get? i
      = some ⟨a, 0⟩ := by
  have hinv := inv_run sz a ha ops _ (inv_construct sz a)
  have hp : cb.ptr = a := hinv.2.1 cb (List.get?_mem hg)
  have ht := release_trace sz i _ cb hg
  have hh := release_handle sz i _ cb hg hlive
  have hc := copy_handle i _ cb hg hlive
  have hm := release_many sz i (cb.use_count - 1) _ cb hg (by omega)
  rw [hp] at ht hh hc hm
  have hsplit : List.replicate cb.use_count (Op.release i) =
      List.replicate (cb.use_count - 1) (Op.release i) ++ [Op.release i] := by
    have e : cb.use_count = (cb.use_count - 1) + 1 := by omega
    conv_lhs => rw [e, List.replicate_succ']
  have hlast := release_trace sz i _ ⟨a, 1⟩ hm.2
  have hdead := release_handle sz i _ ⟨a, 1⟩ hm.2 Nat.one_pos
  have hrun : (paged_ptr.construct sz a).1.run sz
      (ops ++ List.replicate cb.use_count (Op.release i)) =
      (((paged_ptr.construct sz a).1.run sz ops).run sz
        (List.replicate (cb.use_count - 1) (Op.release i))).release sz i := by
    rw [hsplit, run_append, run_append]; rfl
  refine ⟨hp, ht.1, fun h => ht.2 (by omega), hh, hc.1, hc.2, ?_, ?_, ?_⟩
  · rw [run_append]; exact hm.1
  · rw [hrun, hlast.1 rfl, hm.1]
  · rw [hrun]; exact hdead

/-- Witness for C4: a one-byte value at `0x10000`, locked twice, the first handle copied
twice and one of its references released, so that handle 0 holds two references. Releasing
one of them appends nothing; releasing both appends the two unlock calls. -/
theorem release_last_unlocks_twice_witness :
    ((paged_ptr.construct 1 0x10000).1.run 1
        ([Op.lock, Op.lock, Op.copy 0, Op.copy 0, Op.release 0] ++
          List.replicate ((⟨0x10000, 2⟩ : shared_ptr).use_count - 1) (Op.release 0))).trace
      = ((paged_ptr.construct 1 0x10000).1.run 1
          [Op.lock, Op.lock, Op.copy 0, Op.copy 0, Op.release 0]).trace ∧
    ((paged_ptr.construct 1 0x10000).1.run 1
        ([Op.lock, Op.lock, Op.copy 0, Op.copy 0, Op.release 0] ++
          List.replicate (⟨0x10000, 2⟩ : shared_ptr).use_count (Op.release 0))).trace
      = ((paged_ptr.construct 1 0x10000).1.run 1
          [Op.lock, Op.lock, Op.copy 0, Op.copy 0, Op.release 0]).trace ++
          [OsCall.VirtualUnlock 0x10000 1, OsCall.VirtualUnlock 0x10000 1] ∧
    (((paged_ptr.construct 1 0x10000).1.run 1
        [Op.lock, Op.lock, Op.copy 0, Op.copy 0, Op.release 0]).release 1 1).trace
      = ((paged_ptr.construct 1 0x10000).1.run 1
          [Op.lock, Op.lock, Op.copy 0, Op.copy 0, Op.release 0]).trace ++
          [OsCall.VirtualUnlock 0x10000 1, OsCall.VirtualUnlock 0x10000 1] :=
  ⟨(release_last_unlocks_twice 1 0x10000 (by decide)
      [Op.lock, Op.lock, Op.copy 0, Op.copy 0, Op.release 0] 0 ⟨0x10000, 2⟩
      (by decide) (by decide)).2.2.2.2.2.2.1,
   (release_last_unlocks_twice 1 0x10000 (by decide)
      [Op.lock, Op.lock, Op.copy 0, Op.copy 0, Op.release 0] 0 ⟨0x10000, 2⟩
      (by decide) (by decide)).2.2.2.2.2.2.2.1,
   (release_last_unlocks_twice 1 0x10000 (by decide)
      [Op.lock, Op.lock, Op.copy 0, Op.copy 0, Op.release 0] 1 ⟨0x10000, 1⟩
      (by decide) (by decide)).2.1 rfl⟩

/-- C1, as stated, fails: for the one-byte value at `0x10000`, after `lock( )`, release of
that handle and `lock( )` again, the second handle is alive and the page is not locked; and
after two `lock( )` calls and the release of the first handle, the second handle is alive
and the page is not locked. -/
theorem live_handle_page_not_locked :
    (((paged_ptr.construct 1 0x10000).1.run 1 [Op.lock, Op.release 0, Op.lock]).some_alive = true ∧
      page_locked 0x10000
        ((paged_ptr.construct 1 0x10000).1.run 1 [Op.lock, Op.release 0, Op.lock]).trace = false) ∧
    (((paged_ptr.construct 1 0x10000).1.run 1 [Op.lock, Op.lock, Op.release 0]).some_alive = true ∧
      page_locked 0x10000
        ((paged_ptr.construct 1 0x10000).1.run 1 [Op.lock, Op.lock, Op.release 0]).trace = false) := by
  decide

/-- C1, amended: for a valid paged pointer at address `a`, in every state reached by
`lock( )` calls, handle copies and releases in which at least one handle has been returned
and every handle returned so far is still alive, the page is locked; and releasing the last
reference to any one handle leaves the page not locked, whatever other handles are alive. -/
theorem page_locked_until_first_release (sz a : Nat) (ha : a ≠ 0) (ops : List Op) (i : Nat)
    (cb : shared_ptr) :
    (((paged_ptr.construct sz a).1.run sz ops).handles ≠ [] →
      ((paged_ptr.construct sz a).1.run sz ops).all_alive = true →
      page_locked a ((paged_ptr.construct sz a).1.run sz ops).trace = true) ∧
    (((paged_ptr.construct sz a).1.run sz ops).handles.get? i = some cb →
      cb.use_count = 1 →
      page_locked a (((paged_ptr.construct sz a).1.run sz ops).release sz i).trace = false) := by
  have hinv := inv_run sz a ha ops _ (inv_construct sz a)
  constructor
  · intro hne hall
    exact hinv.2.2.2 hall (hinv.2.2.1 hne)
  · intro hg h1
    have hp : cb.ptr = a := hinv.2.1 cb (List.get?_mem hg)
    rw [(release_trace sz i _ cb hg).1 h1, hp]
    exact page_locked_append_unlocks a sz _

/-- Witness for the amended C1: a one-byte value at `0x10000`, locked twice with the first
handle copied and that copy released again. Both handles are alive and the page is locked;
handle 1 holds a single reference, and after its release the page is not locked although
handle 0 is alive. -/
theorem page_locked_until_first_release_witness :
    page_locked 0x10000 ((paged_ptr.construct 1 0x10000).1.run 1
      [Op.lock, Op.lock, Op.copy 0, Op.release 0]).trace = true ∧
    page_locked 0x10000 (((paged_ptr.construct 1 0x10000).1.run 1
      [Op.lock, Op.lock, Op.copy 0, Op.release 0]).release 1 1).trace = false ∧
    (((paged_ptr.construct 1 0x10000).1.run 1
      [Op.lock, Op.lock, Op.copy 0, Op.release 0]).release 1 1).some_alive = true :=
  ⟨(page_locked_until_first_release 1 0x10000 (by decide)
      [Op.lock, Op.lock, Op.copy 0, Op.release 0] 1 ⟨0x10000, 1⟩).1 (by decide) (by decide),
   (page_locked_until_first_release 1 0x10000 (by decide)
      [Op.lock, Op.lock, Op.copy 0, Op.release 0] 1 ⟨0x10000, 1⟩).2 (by decide) (by decide),
   by decide⟩

/-! ## The scan of a batch -/

theorem scan_append (h : Host) (wl : List Nat) (ys : List PSAPI_WS_WATCH_INFORMATION_EX) :
    ∀ xs : List PSAPI_WS_WATCH_INFORMATION_EX, (scan h wl xs).2 = none →
      scan h wl (xs ++ ys) = ((scan h wl xs).1 ++ (scan h wl ys).1, (scan h wl ys).2) := by
  intro xs
  induction xs with
  | nil => intro _; simp [scan]
  | cons e rest ih =>
    intro hok
    by_cases hpc : e.FaultingPc = 0
    · simp only [List.cons_append, scan, hpc, if_true] at hok ⊢
      exact ih hok
    · by_cases hm : page_align e.FaultingVa ∈ wl
      · cases hg : get_process_id h e.FaultingThreadId with
        | error err => simp [scan, hpc, hm, hg] at hok
        | ok pid =>
          by_cases hc : pid = h.current_pid
          · simp only [List.cons_append, scan, hpc, hm, hg, hc, if_true, if_false] at hok ⊢
            exact ih hok
          · cases hp : get_process_path h pid with
            | error err => simp [scan, hpc, hm, hg, hc, hp] at hok
            | ok path =>
              simp only [List.cons_append, scan, hpc, hm, hg, hc, hp, if_true, if_false]
                at hok ⊢
              have e2 : scan h wl (rest.append ys) =
                  ((scan h wl rest).1 ++ (scan h wl ys).1, (scan h wl ys).2) := ih hok
              rw [e2]
      · simp only [List.cons_append, scan, hpc, hm, if_false] at hok ⊢
        exact ih hok

theorem scan_ok (h : Host) (wl : List Nat) :
    ∀ xs : List PSAPI_WS_WATCH_INFORMATION_EX,
      (∀ e ∈ xs, e.FaultingPc ≠ 0 → page_align e.FaultingVa ∈ wl →
        ∃ p, get_process_id h e.FaultingThreadId = .ok p ∧
          (p ≠ h.current_pid → ∃ path, get_process_path h p = .ok path)) →
      (scan h wl xs).2 = none := by
  intro xs
  induction xs with
  | nil => intro _; rfl
  | cons e rest ih =>
    intro hres
    have hrest := ih (fun x hx => hres x (List.mem_cons_of_mem _ hx))
    by_cases hpc : e.FaultingPc = 0
    · simp only [scan, hpc, if_true]; exact hrest
    · by_cases hm : page_align e.FaultingVa ∈ wl
      · obtain ⟨p, hg, hpath⟩ := hres e (List.mem_cons_self _ _) hpc hm
        by_cases hc : p = h.current_pid
        · simp only [scan, hpc, hm, hg, hc, if_true, if_false]; exact hrest
        · obtain ⟨path, hp⟩ := hpath hc
          simp only [scan, hpc, hm, hg, hc, hp, if_true, if_false]; exact hrest
      · simp only [scan, hpc, hm, if_false]; exact hrest

theorem scan_line_origin (h : Host) (wl : List Nat) (l : Line) :
    ∀ xs : List PSAPI_WS_WATCH_INFORMATION_EX, l ∈ (scan h wl xs).1 →
      ∃ e ∈ xs, ∃ pid, e.FaultingPc ≠ 0 ∧ page_align e.FaultingVa ∈ wl ∧
        get_process_id h e.FaultingThreadId = .ok pid ∧ pid ≠ h.current_pid ∧
        (l = Line.mapped (page_align e.FaultingVa) e.FaultingVa e.FaultingThreadId e.FaultingPc ∨
          ∃ path, l = Line.image path pid) := by
  intro xs
  induction xs with
  | nil => intro hl; simp [scan] at hl
  | cons e rest ih =>
    intro hl
    have lift : l ∈ (scan h wl rest).1 →
        ∃ e' ∈ e :: rest, ∃ pid, e'.FaultingPc ≠ 0 ∧ page_align e'.FaultingVa ∈ wl ∧
          get_process_id h e'.FaultingThreadId = .ok pid ∧ pid ≠ h.current_pid ∧
          (l = Line.mapped (page_align e'.FaultingVa) e'.FaultingVa e'.FaultingThreadId
                e'.FaultingPc ∨
            ∃ path, l = Line.image path pid) := by
      intro hr
      obtain ⟨e', he', rest'⟩ := ih hr
      exact ⟨e', List.mem_cons_of_mem _ he', rest'⟩
    by_cases hpc : e.FaultingPc = 0
    · simp only [scan, hpc, if_true] at hl; exact lift hl
    · by_cases hm : page_align e.FaultingVa ∈ wl
      · cases hg : get_process_id h e.FaultingThreadId with
        | error err => simp [scan, hpc, hm, hg] at hl
        | ok pid =>
          by_cases hc : pid = h.current_pid
          · simp only [scan, hpc, hm, hg, hc, if_true, if_false] at hl; exact lift hl
          · cases hp : get_process_path h pid with
            | error err =>
              simp only [scan, hpc, hm, hg, hc, hp, if_true, if_false,
                List.mem_singleton] at hl
              exact ⟨e, List.mem_cons_self _ _, pid, hpc, hm, hg, hc, Or.inl hl⟩
            | ok path =>
              simp only [scan, hpc, hm, hg, hc, hp, if_true, if_false, List.mem_cons] at hl
              rcases hl with hl | hl | hl
              · exact ⟨e, List.mem_cons_self _ _, pid, hpc, hm, hg, hc, Or.inl hl⟩
              · exact ⟨e, List.mem_cons_self _ _, pid, hpc, hm, hg, hc, Or.inr ⟨path, hl⟩⟩
              · exact lift hl
      · simp only [scan, hpc, hm, if_false] at hl; exact lift hl

/-- C3: every line the scan prints comes from a record of the batch with a non-null
program counter, on a watched page, whose thread resolves to a process other than the
current one (the process id printed is that one); and no line reports the thread of a
record whose thread belongs to the current process. -/
theorem scan_suppresses_self (h : Host) (wl : List Nat)
    (batch : List PSAPI_WS_WATCH_INFORMATION_EX) (l : Line)
    (own : PSAPI_WS_WATCH_INFORMATION_EX)
    (hl : l ∈ (scan h wl batch).1)
    (hown : get_process_id h own.FaultingThreadId = .ok h.current_pid) :
    (∃ e ∈ batch, ∃ pid, e.FaultingPc ≠ 0 ∧ page_align e.FaultingVa ∈ wl ∧
      get_process_id h e.FaultingThreadId = .ok pid ∧ pid ≠ h.current_pid ∧
      (l = Line.mapped (page_align e.FaultingVa) e.FaultingVa e.FaultingThreadId e.FaultingPc ∨
        ∃ path, l = Line.image path pid)) ∧
    (∀ page va pc, Line.mapped page va own.FaultingThreadId pc ∉ (scan h wl batch).1) ∧
    (∀ path, Line.image path h.current_pid ∉ (scan h wl batch).1) := by
  refine ⟨scan_line_origin h wl l batch hl, ?_, ?_⟩
  · intro page va pc hmem
    obtain ⟨e, _, pid, _, _, hg, hc, hor⟩ := scan_line_origin h wl _ batch hmem
    rcases hor with heq | ⟨path, heq⟩
    · injection heq with _ _ htid _
      rw [← htid, hown] at hg
      injection hg with hg
      exact hc hg.symm
    · cases heq
  · intro path hmem
    obtain ⟨e, _, pid, _, _, hg, hc, hor⟩ := scan_line_origin h wl _ batch hmem
    rcases hor with heq | ⟨path', heq⟩
    · cases heq
    · injection heq with _ hpid
      exact hc hpid.symm

/-- Witness for C3: the current process is 1, thread 7 belongs to process 2 and thread 8 to
process 1; both touch the watched page `0x5000`. The line for thread 7 is printed and has
a foreign origin; no line reports thread 8. -/
theorem scan_suppresses_self_witness :
    (∃ e ∈ [(⟨0x401000, 0x5008, 8, 0⟩ : PSAPI_WS_WATCH_INFORMATION_EX), ⟨0x401000, 0x5004, 7, 0⟩],
      ∃ pid, e.FaultingPc ≠ 0 ∧ page_align e.FaultingVa ∈ [0x5000] ∧
      get_process_id (Host.sample (fun t => if t = 7 then some 2 else some 1))
        e.FaultingThreadId = .ok pid ∧
      pid ≠ (Host.sample (fun t => if t = 7 then some 2 else some 1)).current_pid ∧
      (Line.mapped 0x5000 0x5004 7 0x401000 =
          Line.mapped (page_align e.FaultingVa) e.FaultingVa e.FaultingThreadId e.FaultingPc ∨
        ∃ path, Line.mapped 0x5000 0x5004 7 0x401000 = Line.image path pid)) ∧
    (∀ page va pc,
      Line.mapped page va (⟨0x401000, 0x5008, 8, 0⟩ : PSAPI_WS_WATCH_INFORMATION_EX).FaultingThreadId
          pc ∉
        (scan (Host.sample (fun t => if t = 7 then some 2 else some 1)) [0x5000]
          [⟨0x401000, 0x5008, 8, 0⟩, ⟨0x401000, 0x5004, 7, 0⟩]).1) ∧
    (∀ path,
      Line.image path (Host.sample (fun t => if t = 7 then some 2 else some 1)).current_pid ∉
        (scan (Host.sample (fun t => if t = 7 then some 2 else some 1)) [0x5000]
          [⟨0x401000, 0x5008, 8, 0⟩, ⟨0x401000, 0x5004, 7, 0⟩]).1) :=
  scan_suppresses_self (Host.sample (fun t => if t = 7 then some 2 else some 1)) [0x5000]
    [⟨0x401000, 0x5008, 8, 0⟩, ⟨0x401000, 0x5004, 7, 0⟩]
    (Line.mapped 0x5000 0x5004 7 0x401000) ⟨0x401000, 0x5008, 8, 0⟩
    (by decide) rfl

theorem filter_scan_nil (h : Host) (wl : List Nat) (page : Nat)
    (xs : List PSAPI_WS_WATCH_INFORMATION_EX)
    (hone : ∀ e ∈ xs, ¬ (e.FaultingPc ≠ 0 ∧ page_align e.FaultingVa = page ∧
      get_process_id h e.FaultingThreadId ≠ .ok h.current_pid)) :
    (scan h wl xs).1.filter (Line.is_mapped_on page) = [] := by
  rw [List.filter_eq_nil_iff]
  intro l hl hmapped
  obtain ⟨e, he, pid, hpc, _, hg, hc, hor⟩ := scan_line_origin h wl l xs hl
  rcases hor with heq | ⟨path, heq⟩
  · rw [heq] at hmapped
    simp only [Line.is_mapped_on, beq_iff_eq] at hmapped
    refine hone e he ⟨hpc, hmapped, ?_⟩
    rw [hg]
    intro hcontra
    injection hcontra with hcontra
    exact hc hcontra
  · rw [heq] at hmapped
    simp [Line.is_mapped_on] at hmapped

theorem scan_none_reportable (h : Host) (wl : List Nat) :
    ∀ xs : List PSAPI_WS_WATCH_INFORMATION_EX,
      (∀ e ∈ xs, e.FaultingPc = 0 ∨ page_align e.FaultingVa ∉ wl ∨
        get_process_id h e.FaultingThreadId = .ok h.current_pid) →
      scan h wl xs = ([], none) := by
  intro xs
  induction xs with
  | nil => intro _; rfl
  | cons e rest ih =>
    intro hno
    have hrest := ih (fun x hx => hno x (List.mem_cons_of_mem _ hx))
    rcases hno e (List.mem_cons_self _ _) with hpc | hm | hg
    · simp only [scan, hpc, if_true]; exact hrest
    · by_cases hpc : e.FaultingPc = 0
      · simp only [scan, hpc, if_true]; exact hrest
      · simp only [scan, hpc, hm, if_false]; exact hrest
    · by_cases hpc : e.FaultingPc = 0
      · simp only [scan, hpc, if_true]; exact hrest
      · by_cases hm : page_align e.FaultingVa ∈ wl
        · simp only [scan, hpc, hm, hg, if_true, if_false]; exact hrest
        · simp only [scan, hpc, hm, if_false]; exact hrest

/-- C2, as stated, fails: the address `0x5001` is registered through `add`; the batch holds
one record with a non-null program counter, a faulting address `0x5004` in the page of
`0x5001`, and a thread of the foreign process 2, with all resolutions succeeding; the scan
prints nothing. -/
theorem unaligned_registration_not_reported :
    (watcher.add ⟨jthread.started.detach, []⟩ 0x5001).1.watch_list = [0x5001] ∧
    (⟨0x401000, 0x5004, 7, 0⟩ : PSAPI_WS_WATCH_INFORMATION_EX).FaultingPc ≠ 0 ∧
    page_align 0x5004 = page_align 0x5001 ∧
    get_process_id (Host.sample (fun _ => some 2)) 7 = .ok 2 ∧
    2 ≠ (Host.sample (fun _ => some 2)).current_pid ∧
    get_process_path (Host.sample (fun _ => some 2)) 2 = .ok "reader.exe" ∧
    scan (Host.sample (fun _ => some 2))
      (watcher.add ⟨jthread.started.detach, []⟩ 0x5001).1.watch_list
      [⟨0x401000, 0x5004, 7, 0⟩] = ([], none) := by
  refine ⟨rfl, by decide, by decide, rfl, by decide, rfl, by decide⟩

/-- C2, amended: for every page-aligned address `A` registered through `add( A )` (whatever
was registered before or is registered later), and every batch holding exactly one record
`r` with a non-null program counter, a faulting address in the page of `A` and a thread of
another process, with every resolution the scan makes succeeding: the scan completes and
prints exactly one `mapped` line for the page of `A`, carrying the page address
`page_align r.FaultingVa` and the thread id of `r`; and when no other record of the batch is
a foreign touch of a watched page, the whole output is that line followed by its `image`
line. -/
theorem registered_touch_reported (h : Host) (w : watcher) (A : Nat) (later : List Nat)
    (before after : List PSAPI_WS_WATCH_INFORMATION_EX) (r : PSAPI_WS_WATCH_INFORMATION_EX)
    (pid : Nat) (path : String)
    (hA : page_align A = A)
    (hpc : r.FaultingPc ≠ 0)
    (hpage : page_align r.FaultingVa = page_align A)
    (hpid : get_process_id h r.FaultingThreadId = .ok pid)
    (hforeign : pid ≠ h.current_pid)
    (hpath : get_process_path h pid = .ok path)
    (hres : ∀ e ∈ before ++ after, e.FaultingPc ≠ 0 →
      page_align e.FaultingVa ∈ ((w.add A).1.add_all later).watch_list →
      ∃ p, get_process_id h e.FaultingThreadId = .ok p ∧
        (p ≠ h.current_pid → ∃ s, get_process_path h p = .ok s))
    (hone : ∀ e ∈ before ++ after, ¬ (e.FaultingPc ≠ 0 ∧
      page_align e.FaultingVa = page_align A ∧
      get_process_id h e.FaultingThreadId ≠ .ok h.current_pid)) :
    (scan h ((w.add A).1.add_all later).watch_list (before ++ r :: after)).2 = none ∧
    (scan h ((w.add A).1.add_all later).watch_list (before ++ r :: after)).1.filter
        (Line.is_mapped_on (page_align A))
      = [Line.mapped (page_align r.FaultingVa) r.FaultingVa r.FaultingThreadId r.FaultingPc] ∧
    ((∀ e ∈ before ++ after, e.FaultingPc = 0 ∨
        page_align e.FaultingVa ∉ ((w.add A).1.add_all later).watch_list ∨
        get_process_id h e.FaultingThreadId = .ok h.current_pid) →
      (scan h ((w.add A).1.add_all later).watch_list (before ++ r :: after)).1
        = [Line.mapped (page_align r.FaultingVa) r.FaultingVa r.FaultingThreadId r.FaultingPc,
           Line.image path pid]) := by
  have hAmem : A ∈ ((w.add A).1.add_all later).watch_list := by
    rw [add_all_watch_list, add_watch_list]; simp
  have hmr : page_align r.FaultingVa ∈ ((w.add A).1.add_all later).watch_list := by
    rw [hpage, hA]; exact hAmem
  generalize ((w.add A).1.add_all later).watch_list = wl at *
  have hokb : (scan h wl before).2 = none :=
    scan_ok h wl before (fun e he => hres e (List.mem_append_left _ he))
  have hoka : (scan h wl after).2 = none :=
    scan_ok h wl after (fun e he => hres e (List.mem_append_right _ he))
  have hr : scan h wl (r :: after) =
      (Line.mapped (page_align r.FaultingVa) r.FaultingVa r.FaultingThreadId r.FaultingPc
        :: Line.image path pid :: (scan h wl after).1, (scan h wl after).2) := by
    simp only [scan, hpc, hmr, hpid, hforeign, hpath, if_true, if_false]
  have hall := scan_append h wl (r :: after) before hokb
  rw [hr] at hall
  rw [hall]
  refine ⟨hoka, ?_, ?_⟩
  · have fb := filter_scan_nil h wl (page_align A) before
      (fun e he => hone e (List.mem_append_left _ he))
    have fa := filter_scan_nil h wl (page_align A) after
      (fun e he => hone e (List.mem_append_right _ he))
    simp only [List.filter_append, List.filter_cons, fb, fa, Line.is_mapped_on, hpage,
      beq_self_eq_true, if_true, List.nil_append]
    simp
  · intro hno
    rw [scan_none_reportable h wl before (fun e he => hno e (List.mem_append_left _ he)),
      scan_none_reportable h wl after (fun e he => hno e (List.mem_append_right _ he))]
    rfl

/-- Witness for the amended C2: the current process is 1, thread 7 belongs to process 2 and
every other thread to process 1. The page-aligned address `0x5000` is registered, then
`0x9000`. The batch holds a touch of the page by thread 8 (own process), the touch at
`0x5004` by thread 7, and a cleared record. The scan completes and prints the one `mapped`
line for thread 7 followed by its `image` line. -/
theorem registered_touch_reported_witness :
    (scan (Host.sample (fun t => if t = 7 then some 2 else some 1))
      ((watcher.add ⟨jthread.started.detach, []⟩ 0x5000).1.add_all [0x9000]).watch_list
      ([⟨0x401000, 0x5008, 8, 0⟩] ++ ⟨0x401000, 0x5004, 7, 0⟩ :: [⟨0, 0, 0, 0⟩])).2 = none ∧
    (scan (Host.sample (fun t => if t = 7 then some 2 else some 1))
      ((watcher.add ⟨jthread.started.detach, []⟩ 0x5000).1.add_all [0x9000]).watch_list
      ([⟨0x401000, 0x5008, 8, 0⟩] ++ ⟨0x401000, 0x5004, 7, 0⟩ :: [⟨0, 0, 0, 0⟩])).1.filter
        (Line.is_mapped_on (page_align 0x5000))
      = [Line.mapped (page_align 0x5004) 0x5004 7 0x401000] ∧
    (scan (Host.sample (fun t => if t = 7 then some 2 else some 1))
      ((watcher.add ⟨jthread.started.detach, []⟩ 0x5000).1.add_all [0x9000]).watch_list
      ([⟨0x401000, 0x5008, 8, 0⟩] ++ ⟨0x401000, 0x5004, 7, 0⟩ :: [⟨0, 0, 0, 0⟩])).1
      = [Line.mapped (page_align 0x5004) 0x5004 7 0x401000, Line.image "reader.exe" 2] :=
  have hthm := registered_touch_reported
    (Host.sample (fun t => if t = 7 then some 2 else some 1))
    ⟨jthread.started.detach, []⟩ 0x5000 [0x9000]
    [⟨0x401000, 0x5008, 8, 0⟩] [⟨0, 0, 0, 0⟩] ⟨0x401000, 0x5004, 7, 0⟩ 2 "reader.exe"
    (by decide) (by decide) (by decide) rfl (by decide) rfl
    (by
      intro e he _ _
      simp only [List.singleton_append, List.mem_cons, List.mem_singleton, List.not_mem_nil,
        or_false] at he
      rcases he with rfl | rfl
      · exact ⟨1, rfl, fun hne => absurd rfl hne⟩
      · exact ⟨1, rfl, fun hne => absurd rfl hne⟩)
    (by
      intro e he hq
      simp only [List.singleton_append, List.mem_cons, List.mem_singleton, List.not_mem_nil,
        or_false] at he
      rcases he with rfl | rfl
      · exact hq.2.2 rfl
      · exact hq.1 rfl)
  ⟨hthm.1, hthm.2.1, hthm.2.2 (by
      intro e he
      simp only [List.singleton_append, List.mem_cons, List.mem_singleton, List.not_mem_nil,
        or_false] at he
      rcases he with rfl | rfl
      · exact Or.inr (Or.inr rfl)
      · exact Or.inl rfl)⟩

/-! ## The poll loop -/

end ws
